import Mathlib

/-!
Shallow embedding of the rakkess result-rendering core:
* `printer` — outcome/renderable primitives and the table model
  (source: internal/printer, file `part_001`).
* `result` — grouping, sorting and table assembly
  (source: internal/client/result/resource.go).

Go strings are modelled as Lean `String`; Go's byte-wise lexicographic
comparison (`cmp.Less` on `string`) is modelled by code-point lexicographic
comparison on `String.data`, which induces the same order on valid UTF-8.
Go maps are modelled as association lists whose key order reflects Go's
unspecified map iteration order; a missing key yields the zero value.
-/

/-- Code-point lexicographic strict order on char lists; models Go's
byte-wise `<` on strings (the orders agree on valid UTF-8). -/
def ltCh : List Char → List Char → Bool
  | [], [] => false
  | [], _ :: _ => true
  | _ :: _, [] => false
  | a :: as, b :: bs => if a < b then true else if b < a then false else ltCh as bs

/-- Models `cmp.Less` on Go strings (byte-wise lexicographic). -/
def strLt (a b : String) : Bool := ltCh a.data b.data

/-- Models `strings.ToUpper` (per-character upper-casing; the verbs fed to the
table are ASCII, where Go and Lean agree). -/
def toUpperStr (s : String) : String := ⟨s.data.map Char.toUpper⟩

/-- The ANSI escape character U+001B, used to detect escape sequences. -/
def escChar : Char := Char.ofNat 27

namespace printer

/-- Go `type Outcome uint8` with `const (None Outcome = iota; Up; Down; Err)`:
the four declared constants. -/
inductive Outcome where
  | None
  | Up
  | Down
  | Err
deriving DecidableEq

/-- The numeric value of each declared constant (`None = 0`, `Up = 1`,
`Down = 2`, `Err = 3`), connecting `Outcome` to its `uint8` representation. -/
def Outcome.toNat : Outcome → Nat
  | .None => 0
  | .Up => 1
  | .Down => 2
  | .Err => 3

/-- Go `type Env struct { IsTerminal bool; OutputFormat string }`. -/
structure Env where
  IsTerminal : Bool
  OutputFormat : String

/-- The `Renderable` interface, restricted to the shapes the program builds:
`Text` (renders verbatim) and `Bold` (the `Bold`/`BoldText` combinator). -/
inductive Renderable where
  | Text : String → Renderable
  | Bold : Renderable → Renderable
deriving DecidableEq

/-- Rendering: `Text.Render` returns the string verbatim; `Bold` wraps the inner
rendering in `\xff\033[1m … \033[0m\xff` only when the env is a terminal.
`\xff` (the tabwriter escape marker) is modelled as U+00FF, `\033` as U+001B. -/
def Renderable.Render : Renderable → Env → String
  | .Text s, _ => s
  | .Bold r, e =>
    if e.IsTerminal then "ÿ\u001B[1m" ++ r.Render e ++ "\u001B[0mÿ"
    else r.Render e

/-- Function `humanreadableAccessCode`: None→"", Up→"✔", Down→"✖", Err→"ERR".
(The panic branch is unreachable on the four declared constants; the
`uint8`-level model below keeps it.) -/
def humanreadableAccessCode : Outcome → String
  | .None => ""
  | .Up => "✔"
  | .Down => "✖"
  | .Err => "ERR"

/-- Function `colored`: picks color 32 (green) for Up, 31 (red) for Down, 35 (purple)
for Err, and 0 (`none`) otherwise, then formats
`"\xff\033[<c>m\xff<inner>\xff\033[0m\xff"`. -/
def colored (wrap : Outcome → String) (o : Outcome) : String :=
  let c : Nat :=
    match o with
    | .Up => 32
    | .Down => 31
    | .Err => 35
    | .None => 0
  "ÿ\u001B[" ++ Nat.repr c ++ "mÿ" ++ wrap o ++ "ÿ\u001B[0mÿ"

/-- Function `asciiAccessCode`: None→"n/a", Up→"yes", Down→"no", Err→"ERR". -/
def asciiAccessCode : Outcome → String
  | .None => "n/a"
  | .Up => "yes"
  | .Down => "no"
  | .Err => "ERR"

/-- Method `Outcome.Render`: start from the human-readable mapping, wrap in colors
when the env is a terminal, and override with the ASCII mapping when the
output format is "ascii-table". -/
def Outcome.Render (o : Outcome) (e : Env) : String :=
  let conv := humanreadableAccessCode
  let conv := if e.IsTerminal then colored conv else conv
  let conv := if e.OutputFormat = "ascii-table" then asciiAccessCode else conv
  conv o

/-- Raw `uint8`-level model of `humanreadableAccessCode`: the argument is the raw
numeric outcome; the `default: panic` branch is modelled by `Option.none`. -/
def humanreadableAccessCodeGo (o : Nat) : Option String :=
  if o = 0 then some ""
  else if o = 1 then some "✔"
  else if o = 2 then some "✖"
  else if o = 3 then some "ERR"
  else Option.none

/-- Raw `uint8`-level model of `colored`: the color switch has no panic (unknown
values keep color 0), so a panic can only come from the wrapped function. -/
def coloredGo (wrap : Nat → Option String) (o : Nat) : Option String :=
  let c : Nat := if o = 1 then 32 else if o = 2 then 31 else if o = 3 then 35 else 0
  (wrap o).map
    (fun s => "ÿ\u001B[" ++ Nat.repr c ++ "mÿ" ++ s ++ "ÿ\u001B[0mÿ")

/-- Raw `uint8`-level model of `asciiAccessCode`, panic as `Option.none`. -/
def asciiAccessCodeGo (o : Nat) : Option String :=
  if o = 0 then some "n/a"
  else if o = 1 then some "yes"
  else if o = 2 then some "no"
  else if o = 3 then some "ERR"
  else Option.none

/-- Raw `uint8`-level model of `Outcome.Render`, propagating a panic (`none`)
from the selected access-code function. -/
def RenderGo (o : Nat) (e : Env) : Option String :=
  let conv := humanreadableAccessCodeGo
  let conv := if e.IsTerminal then coloredGo conv else conv
  let conv := if e.OutputFormat = "ascii-table" then asciiAccessCodeGo else conv
  conv o

/-- Go `type Row struct { Intro []Renderable; Entries []Outcome }`. -/
structure Row where
  Intro : List Renderable
  Entries : List Outcome
deriving DecidableEq

/-- Go `type Table struct { Headers []Renderable; Rows []Row }`. -/
structure Table where
  Headers : List Renderable
  Rows : List Row

/-- Function `TableWithHeaders` starts a table with the given headers and no rows. -/
def TableWithHeaders (headers : List Renderable) : Table :=
  { Headers := headers, Rows := [] }

/-- Method `Table.AddRow` appends one row built from an intro and outcome entries. -/
def Table.AddRow (t : Table) (intro : List Renderable) (outcomes : List Outcome) : Table :=
  { t with Rows := t.Rows ++ [{ Intro := intro, Entries := outcomes }] }

/-- Tab-join a list of cells: first cell bare, each later cell preceded by a
tab (the `i == 0` special case in the writing loops). -/
def joinTab : List String → String
  | [] => ""
  | c :: cs => List.foldl (fun acc s => acc ++ "\t" ++ s) c cs

/-- One body row as written by `Table.Render`: intro cells tab-joined, then
each outcome entry preceded by a tab, then a newline. -/
def rowLine (e : Env) (row : Row) : String :=
  joinTab (row.Intro.map (fun r => r.Render e))
    ++ String.join (row.Entries.map (fun o => "\t" ++ o.Render e)) ++ "\n"

/-- Pure model of `Table.Render`: the byte sequence written to the tabwriter
(header line, then one line per row). The `io.Writer` and the cached
terminal detection are abstracted into the explicit `Env`. -/
def Table.Render (t : Table) (e : Env) : String :=
  joinTab (t.Headers.map (fun h => h.Render e)) ++ "\n"
    ++ String.join (t.Rows.map (rowLine e))

end printer

namespace result

/-- The `Access` values used by the `switch` in `ResourceAccess.Table`. -/
inductive Access where
  | Denied
  | Allowed
  | NotApplicable
  | RequestErr
deriving DecidableEq

/-- Modelled from the spec: the `Access` constant declarations (access.go)
are not under src/; per the spec, a verb absent from the per-resource
mapping resolves to the not-applicable/NoData outcome, so the zero value a
Go map lookup returns for a missing verb is `NotApplicable`. -/
def Access.zeroValue : Access := .NotApplicable

/-- Type `schema.GroupResource` (k8s.io/apimachinery): a (group, resource) pair. -/
structure GroupResource where
  Group : String
  Resource : String
deriving DecidableEq

/-- Split a char list at the first '.', returning the parts before and after
it, or nothing when no '.' occurs (models `strings.Index`/slicing). -/
def cutDotAux : List Char → Option (List Char × List Char)
  | [] => Option.none
  | c :: cs =>
    if c = '.' then some ([], cs)
    else (cutDotAux cs).map (fun p => (c :: p.1, p.2))

/-- Function `schema.ParseGroupResource` (apimachinery): everything before the first
dot is the resource, everything after it the group; no dot means empty
group. -/
def ParseGroupResource (s : String) : GroupResource :=
  match cutDotAux s.data with
  | some p => { Group := ⟨p.2⟩, Resource := ⟨p.1⟩ }
  | Option.none => { Group := "", Resource := s }

/-- Method `GroupResource.String()` (apimachinery): `resource` when the group is
empty, else `resource + "." + group`. -/
def GroupResource.toStr (gr : GroupResource) : String :=
  if gr.Group = "" then gr.Resource else gr.Resource ++ "." ++ gr.Group

/-- Go `type ResourceAccess map[string]map[string]Access`, modelled as an
association list (outer map); iteration order of the keys is the list
order. -/
abbrev ResourceAccess := List (String × List (String × Access))

/-- Association-list lookup, the `m[k]` part of a Go map read. -/
def findVal {α : Type} (m : List (String × α)) (k : String) : Option α :=
  (m.find? (fun p => decide (p.1 = k))).map Prod.snd

/-- Lookup `res[v]` on the inner map: the stored value, or the zero value when the
verb is absent. -/
def innerGet (res : List (String × Access)) (v : String) : Access :=
  (findVal res v).getD Access.zeroValue

/-- Lookup `ra[name]` on the outer map: the stored verb map, or an empty map when
the name is absent. -/
def outerGet (ra : ResourceAccess) (name : String) : List (String × Access) :=
  (findVal ra name).getD []

/-- The `switch res[v]` in the table body: Denied→Down, Allowed→Up,
NotApplicable→None, RequestErr→Err. -/
def accessToOutcome : Access → printer.Outcome
  | .Denied => .Down
  | .Allowed => .Up
  | .NotApplicable => .None
  | .RequestErr => .Err

/-- The `sort.Slice` comparator: first by group, then by resource
(case-sensitive lexicographic, on the raw group string). -/
def less (x y : GroupResource) : Bool :=
  if x.Group ≠ y.Group then strLt x.Group y.Group
  else strLt x.Resource y.Resource

/-- Insert into a list sorted by the comparator (helper for `sortSlice`). -/
def insertSorted (a : GroupResource) : List GroupResource → List GroupResource
  | [] => [a]
  | b :: bs => if less a b then a :: b :: bs else b :: insertSorted a bs

/-- Model of `sort.Slice` with the comparator above: produces a permutation
of the input that is sorted with respect to `less`. -/
def sortSlice : List GroupResource → List GroupResource
  | [] => []
  | a :: as => insertSorted a (sortSlice as)

/-- The spacer row `p.AddRow([]string{" "}, printer.None)`: a single blank
intro cell and exactly one `None` outcome entry. -/
def spacerRow : printer.Row :=
  { Intro := [.Text " "], Entries := [.None] }

/-- The group-header row
`p.AddRow(append([]string{displayGroup + ":"}, upperVerbs...), printer.None)`:
the display label (empty group shown as "core") followed by the upper-cased
verb names, with exactly one `None` outcome entry. -/
def headerRow (group : String) (verbs : List String) : printer.Row :=
  { Intro := .Text ((if group = "" then "core" else group) ++ ":")
      :: verbs.map (fun v => printer.Renderable.Text (toUpperStr v)),
    Entries := [.None] }

/-- The data row `p.AddRow([]string{gr.Resource}, outcomes...)`: the resource
name and one outcome per verb, looked up via `ra[gr.String()][v]`. -/
def dataRow (ra : ResourceAccess) (verbs : List String) (gr : GroupResource) : printer.Row :=
  { Intro := [.Text gr.Resource],
    Entries := verbs.map (fun v => accessToOutcome (innerGet (outerGet ra gr.toStr) v)) }

/-- The table-body loop of `ResourceAccess.Table`: walk the sorted
group-resources tracking `lastGroup` and whether this is the first element
(`i == 0`); on a group change (or at the first element) emit a spacer
(skipped at the first element) and a group-header row, then the data row. -/
def bodyRows (ra : ResourceAccess) (verbs : List String) :
    List GroupResource → Bool → String → List printer.Row
  | [], _, _ => []
  | gr :: rest, first, lastGroup =>
    if gr.Group ≠ lastGroup ∨ first = true then
      (if first then [] else [spacerRow])
        ++ headerRow gr.Group verbs
        :: dataRow ra verbs gr
        :: bodyRows ra verbs rest false gr.Group
    else
      dataRow ra verbs gr :: bodyRows ra verbs rest false lastGroup

/-- The map keys parsed with `ParseGroupResource` and sorted by the
`sort.Slice` comparator. -/
def sortedKeys (ra : ResourceAccess) : List GroupResource :=
  sortSlice ((ra.map Prod.fst).map ParseGroupResource)

/-- Method `ResourceAccess.Table`: build the table (headers `nil`) whose rows are
the body produced from the sorted keys, starting with `lastGroup = ""` and
the first-element flag set. -/
def ResourceAccess.Table (ra : ResourceAccess) (verbs : List String) : printer.Table :=
  { Headers := [], Rows := bodyRows ra verbs (sortedKeys ra) true "" }

/-- Non-strict lexicographic order on (group, resource) pairs, the order the
spec asserts for the emitted data rows. -/
def grLe (x y : GroupResource) : Prop :=
  strLt x.Group y.Group = true ∨
    (x.Group = y.Group ∧ (strLt x.Resource y.Resource = true ∨ x.Resource = y.Resource))

/-- The worked example from the spec:
`{"pods": {get: Allowed, list: Denied}, "pods.apps": {get: Error}}`. -/
def exampleRA : ResourceAccess :=
  [("pods", [("get", .Allowed), ("list", .Denied)]),
   ("pods.apps", [("get", .RequestErr)])]

end result

/-! ### Order lemmas for the comparator -/

theorem ltCh_trans : ∀ (a b c : List Char),
    ltCh a b = true → ltCh b c = true → ltCh a c = true := by
  intro a
  induction a with
  | nil =>
    intro b c hab hbc
    cases b with
    | nil => simp [ltCh] at hab
    | cons y bs =>
      cases c with
      | nil => simp [ltCh] at hbc
      | cons z cs => simp [ltCh]
  | cons x as ih =>
    intro b c hab hbc
    cases b with
    | nil => simp [ltCh] at hab
    | cons y bs =>
      cases c with
      | nil => simp [ltCh] at hbc
      | cons z cs =>
        simp only [ltCh] at hab hbc ⊢
        rcases lt_trichotomy x y with hxy | hxy | hxy
        · rcases lt_trichotomy y z with hyz | hyz | hyz
          · rw [if_pos (lt_trans hxy hyz)]
          · subst hyz; rw [if_pos hxy]
          · rw [if_neg (lt_asymm hyz), if_pos hyz] at hbc
            exact absurd hbc (by simp)
        · subst hxy
          rw [if_neg (lt_irrefl x), if_neg (lt_irrefl x)] at hab
          rcases lt_trichotomy x z with hyz | hyz | hyz
          · rw [if_pos hyz]
          · subst hyz
            rw [if_neg (lt_irrefl x), if_neg (lt_irrefl x)] at hbc ⊢
            exact ih bs cs hab hbc
          · rw [if_neg (lt_asymm hyz), if_pos hyz] at hbc
            exact absurd hbc (by simp)
        · rw [if_neg (lt_asymm hxy), if_pos hxy] at hab
          exact absurd hab (by simp)

theorem ltCh_false_elim : ∀ (a b : List Char),
    ltCh a b = false → ltCh b a = true ∨ a = b := by
  intro a
  induction a with
  | nil =>
    intro b h
    cases b with
    | nil => exact Or.inr rfl
    | cons y bs => simp [ltCh] at h
  | cons x as ih =>
    intro b h
    cases b with
    | nil => simp [ltCh]
    | cons y bs =>
      simp only [ltCh] at h ⊢
      rcases lt_trichotomy x y with hxy | hxy | hxy
      · rw [if_pos hxy] at h; exact absurd h (by simp)
      · subst hxy
        rw [if_neg (lt_irrefl x), if_neg (lt_irrefl x)] at h ⊢
        rcases ih bs h with h2 | h2
        · exact Or.inl h2
        · exact Or.inr (by rw [h2])
      · rw [if_pos hxy]; exact Or.inl rfl

theorem strLt_trans {a b c : String} (h1 : strLt a b = true) (h2 : strLt b c = true) :
    strLt a c = true :=
  ltCh_trans a.data b.data c.data h1 h2

theorem strLt_false_elim {a b : String} (h : strLt a b = false) :
    strLt b a = true ∨ a = b := by
  rcases ltCh_false_elim a.data b.data h with h2 | h2
  · exact Or.inl h2
  · cases a with
    | mk da =>
      cases b with
      | mk db => exact Or.inr (by simp only [String.data] at h2; rw [h2])

namespace result

theorem less_true_grLe {x y : GroupResource} (h : less x y = true) : grLe x y := by
  unfold less at h
  by_cases hg : x.Group = y.Group
  · rw [if_neg (not_not_intro hg)] at h
    exact Or.inr ⟨hg, Or.inl h⟩
  · rw [if_pos hg] at h
    exact Or.inl h

theorem less_false_grLe {x y : GroupResource} (h : less x y = false) : grLe y x := by
  unfold less at h
  by_cases hg : x.Group = y.Group
  · rw [if_neg (not_not_intro hg)] at h
    rcases strLt_false_elim h with h2 | h2
    · exact Or.inr ⟨hg.symm, Or.inl h2⟩
    · exact Or.inr ⟨hg.symm, Or.inr h2.symm⟩
  · rw [if_pos hg] at h
    rcases strLt_false_elim h with h2 | h2
    · exact Or.inl h2
    · exact absurd h2 hg

theorem grLe_trans {x y z : GroupResource} (h1 : grLe x y) (h2 : grLe y z) : grLe x z := by
  rcases h1 with h1 | ⟨he1, hr1⟩
  · rcases h2 with h2 | ⟨he2, _⟩
    · exact Or.inl (strLt_trans h1 h2)
    · exact Or.inl (he2 ▸ h1)
  · rcases h2 with h2 | ⟨he2, hr2⟩
    · exact Or.inl (he1 ▸ h2)
    · refine Or.inr ⟨he1.trans he2, ?_⟩
      rcases hr1 with hr1 | hr1
      · rcases hr2 with hr2 | hr2
        · exact Or.inl (strLt_trans hr1 hr2)
        · exact Or.inl (hr2 ▸ hr1)
      · rcases hr2 with hr2 | hr2
        · exact Or.inl (hr1 ▸ hr2)
        · exact Or.inr (hr1.trans hr2)

theorem mem_insertSorted {b a : GroupResource} :
    ∀ {l : List GroupResource}, b ∈ insertSorted a l → b = a ∨ b ∈ l := by
  intro l
  induction l with
  | nil => intro h; simp [insertSorted] at h; exact Or.inl h
  | cons c cs ih =>
    intro h
    unfold insertSorted at h
    by_cases hc : less a c = true
    · rw [if_pos hc] at h
      rcases List.mem_cons.mp h with h2 | h2
      · exact Or.inl h2
      · exact Or.inr h2
    · rw [if_neg hc] at h
      rcases List.mem_cons.mp h with h2 | h2
      · exact Or.inr (h2 ▸ List.mem_cons_self c cs)
      · rcases ih h2 with h3 | h3
        · exact Or.inl h3
        · exact Or.inr (List.mem_cons_of_mem c h3)

theorem pairwise_insertSorted (a : GroupResource) :
    ∀ (l : List GroupResource), l.Pairwise grLe → (insertSorted a l).Pairwise grLe := by
  intro l
  induction l with
  | nil => intro _; simp [insertSorted]
  | cons b bs ih =>
    intro h
    rcases List.pairwise_cons.mp h with ⟨hb, hbs⟩
    unfold insertSorted
    by_cases hc : less a b = true
    · rw [if_pos hc]
      refine List.pairwise_cons.mpr ⟨?_, h⟩
      intro x hx
      rcases List.mem_cons.mp hx with h2 | h2
      · exact h2 ▸ less_true_grLe hc
      · exact grLe_trans (less_true_grLe hc) (hb x h2)
    · rw [if_neg hc]
      refine List.pairwise_cons.mpr ⟨?_, ih hbs⟩
      intro x hx
      rcases mem_insertSorted hx with h2 | h2
      · exact h2 ▸ less_false_grLe (Bool.not_eq_true _ ▸ hc)
      · exact hb x h2

theorem pairwise_sortSlice : ∀ (l : List GroupResource), (sortSlice l).Pairwise grLe := by
  intro l
  induction l with
  | nil => simp [sortSlice]
  | cons a as ih => exact pairwise_insertSorted a (sortSlice as) ih

theorem length_insertSorted (a : GroupResource) :
    ∀ (l : List GroupResource), (insertSorted a l).length = l.length + 1 := by
  intro l
  induction l with
  | nil => rfl
  | cons b bs ih =>
    unfold insertSorted
    by_cases hc : less a b = true
    · rw [if_pos hc]; rfl
    · rw [if_neg hc]; simp [ih]

theorem length_sortSlice : ∀ (l : List GroupResource), (sortSlice l).length = l.length := by
  intro l
  induction l with
  | nil => rfl
  | cons a as ih => simp [sortSlice, length_insertSorted, ih]

end result

/-! ### Structural lemmas for the table body -/

namespace result

theorem bodyRows_cons (ra : ResourceAccess) (verbs : List String)
    (gr : GroupResource) (rest : List GroupResource) (first : Bool) (g : String) :
    bodyRows ra verbs (gr :: rest) first g =
      if gr.Group ≠ g ∨ first = true then
        (if first then [] else [spacerRow])
          ++ headerRow gr.Group verbs
          :: dataRow ra verbs gr
          :: bodyRows ra verbs rest false gr.Group
      else
        dataRow ra verbs gr :: bodyRows ra verbs rest false g := rfl

theorem bodyRows_true_cons (ra : ResourceAccess) (verbs : List String)
    (gr : GroupResource) (rest : List GroupResource) (g : String) :
    bodyRows ra verbs (gr :: rest) true g =
      headerRow gr.Group verbs :: dataRow ra verbs gr ::
        bodyRows ra verbs rest false gr.Group := by
  rw [bodyRows_cons, if_pos (Or.inr rfl)]
  rfl

theorem bodyRows_false_change (ra : ResourceAccess) (verbs : List String)
    (gr : GroupResource) (rest : List GroupResource) (g : String) (hc : gr.Group ≠ g) :
    bodyRows ra verbs (gr :: rest) false g =
      spacerRow :: headerRow gr.Group verbs :: dataRow ra verbs gr ::
        bodyRows ra verbs rest false gr.Group := by
  rw [bodyRows_cons, if_pos (Or.inl hc)]
  rfl

theorem bodyRows_false_same (ra : ResourceAccess) (verbs : List String)
    (gr : GroupResource) (rest : List GroupResource) (g : String) (hc : gr.Group = g) :
    bodyRows ra verbs (gr :: rest) false g =
      dataRow ra verbs gr :: bodyRows ra verbs rest false g := by
  rw [bodyRows_cons, if_neg (by simp [hc])]

theorem append_colon_ne_space (s : String) : s ++ ":" ≠ " " := by
  intro h
  have hd : s.data ++ [':'] = [' '] := by
    have h2 := congrArg String.data h
    simpa using h2
  cases hsd : s.data with
  | nil => rw [hsd] at hd; exact absurd hd (by decide)
  | cons c cs =>
    rw [hsd] at hd
    have hl := congrArg List.length hd
    simp at hl

theorem spacer_ne_headerRow (g : String) (verbs : List String) :
    spacerRow ≠ headerRow g verbs := by
  intro h
  have h1 : spacerRow.Intro = (headerRow g verbs).Intro := congrArg printer.Row.Intro h
  simp only [spacerRow, headerRow] at h1
  injection h1 with hh _
  injection hh with hs
  exact append_colon_ne_space _ hs.symm

theorem dataRow_ne_headerRow (ra : ResourceAccess) (verbs : List String)
    (gr : GroupResource) (g : String) : dataRow ra verbs gr ≠ headerRow g verbs := by
  intro h
  cases verbs with
  | nil =>
    have h1 : (dataRow ra [] gr).Entries = (headerRow g []).Entries := by rw [h]
    simp [dataRow, headerRow] at h1
  | cons v vs =>
    have h1 : (dataRow ra (v :: vs) gr).Intro.length = (headerRow g (v :: vs)).Intro.length := by
      rw [h]
    simp [dataRow, headerRow] at h1

theorem bodyRows_shape (ra : ResourceAccess) (verbs : List String) :
    ∀ (l : List GroupResource) (first : Bool) (g : String) (row : printer.Row),
      row ∈ bodyRows ra verbs l first g →
      row = spacerRow ∨ (∃ g2, row = headerRow g2 verbs) ∨
        ∃ gr, gr ∈ l ∧ row = dataRow ra verbs gr := by
  intro l
  induction l with
  | nil => intro first g row h; simp [bodyRows] at h
  | cons gr rest ih =>
    intro first g row h
    have hnext : ∀ g3, row ∈ bodyRows ra verbs rest false g3 →
        row = spacerRow ∨ (∃ g2, row = headerRow g2 verbs) ∨
          ∃ gr2, gr2 ∈ gr :: rest ∧ row = dataRow ra verbs gr2 := by
      intro g3 hmem
      rcases ih false g3 row hmem with h5 | h5 | ⟨gr2, hm, he⟩
      · exact Or.inl h5
      · exact Or.inr (Or.inl h5)
      · exact Or.inr (Or.inr ⟨gr2, List.mem_cons_of_mem gr hm, he⟩)
    cases first with
    | true =>
      rw [bodyRows_true_cons] at h
      rcases List.mem_cons.mp h with h2 | h2
      · exact Or.inr (Or.inl ⟨gr.Group, h2⟩)
      · rcases List.mem_cons.mp h2 with h3 | h3
        · exact Or.inr (Or.inr ⟨gr, List.mem_cons_self gr rest, h3⟩)
        · exact hnext gr.Group h3
    | false =>
      by_cases hc : gr.Group = g
      · rw [bodyRows_false_same ra verbs gr rest g hc] at h
        rcases List.mem_cons.mp h with h2 | h2
        · exact Or.inr (Or.inr ⟨gr, List.mem_cons_self gr rest, h2⟩)
        · exact hnext g h2
      · rw [bodyRows_false_change ra verbs gr rest g hc] at h
        rcases List.mem_cons.mp h with h2 | h2
        · exact Or.inl h2
        · rcases List.mem_cons.mp h2 with h3 | h3
          · exact Or.inr (Or.inl ⟨gr.Group, h3⟩)
          · rcases List.mem_cons.mp h3 with h4 | h4
            · exact Or.inr (Or.inr ⟨gr, List.mem_cons_self gr rest, h4⟩)
            · exact hnext gr.Group h4

theorem bodyRows_false_struct (ra : ResourceAccess) (verbs : List String) :
    ∀ (l : List GroupResource) (g : String),
      (∀ g2, (bodyRows ra verbs l false g)[0]? ≠ some (headerRow g2 verbs)) ∧
      (∀ (n : Nat) (g2 : String),
        (bodyRows ra verbs l false g)[n + 1]? = some (headerRow g2 verbs) →
        (bodyRows ra verbs l false g)[n]? = some spacerRow) := by
  intro l
  induction l with
  | nil =>
    intro g
    refine ⟨fun g2 => by simp [bodyRows], fun n g2 h => by simp [bodyRows] at h⟩
  | cons gr rest ih =>
    intro g
    by_cases hc : gr.Group = g
    · rw [bodyRows_false_same ra verbs gr rest g hc]
      constructor
      · intro g2 h
        rw [List.getElem?_cons_zero] at h
        exact dataRow_ne_headerRow ra verbs gr g2 (Option.some.inj h)
      · intro n g2 h
        rw [List.getElem?_cons_succ] at h
        cases n with
        | zero => exact absurd h ((ih g).1 g2)
        | succ m =>
          rw [List.getElem?_cons_succ]
          exact (ih g).2 m g2 h
    · rw [bodyRows_false_change ra verbs gr rest g hc]
      constructor
      · intro g2 h
        rw [List.getElem?_cons_zero] at h
        exact spacer_ne_headerRow g2 verbs (Option.some.inj h)
      · intro n g2 h
        rcases n with _ | n
        · rfl
        rcases n with _ | n
        · rw [List.getElem?_cons_succ, List.getElem?_cons_succ,
            List.getElem?_cons_zero] at h
          exact absurd (Option.some.inj h) (dataRow_ne_headerRow ra verbs gr g2)
        rcases n with _ | n
        · rw [List.getElem?_cons_succ, List.getElem?_cons_succ,
            List.getElem?_cons_succ] at h
          exact absurd h ((ih gr.Group).1 g2)
        · rw [List.getElem?_cons_succ, List.getElem?_cons_succ,
            List.getElem?_cons_succ] at h
          rw [List.getElem?_cons_succ, List.getElem?_cons_succ,
            List.getElem?_cons_succ]
          exact (ih gr.Group).2 n g2 h

theorem map_dataRow_sublist (ra : ResourceAccess) (verbs : List String) :
    ∀ (l : List GroupResource) (first : Bool) (g : String),
      (l.map (dataRow ra verbs)).Sublist (bodyRows ra verbs l first g) := by
  intro l
  induction l with
  | nil => intro first g; simp [bodyRows]
  | cons gr rest ih =>
    intro first g
    rw [List.map_cons]
    cases first with
    | true =>
      rw [bodyRows_true_cons]
      exact List.Sublist.cons _ (List.Sublist.cons₂ _ (ih false gr.Group))
    | false =>
      by_cases hc : gr.Group = g
      · rw [bodyRows_false_same ra verbs gr rest g hc]
        exact List.Sublist.cons₂ _ (ih false g)
      · rw [bodyRows_false_change ra verbs gr rest g hc]
        exact List.Sublist.cons _
          (List.Sublist.cons _ (List.Sublist.cons₂ _ (ih false gr.Group)))

theorem sortedKeys_ne_nil {ra : ResourceAccess} (h : ra ≠ []) : sortedKeys ra ≠ [] := by
  intro h2
  have hl : (sortedKeys ra).length = 0 := by rw [h2]; rfl
  unfold sortedKeys at hl
  rw [length_sortSlice] at hl
  simp at hl
  exact h hl

end result

namespace printer

theorem render_ascii_eq (o : Outcome) (t : Bool) :
    Outcome.Render o ⟨t, "ascii-table"⟩ = asciiAccessCode o := by
  cases t <;> rfl

end printer

namespace result

theorem table_rows_introText (ra : ResourceAccess) (verbs : List String)
    (row : printer.Row) (h : row ∈ (ResourceAccess.Table ra verbs).Rows) :
    ∀ r ∈ row.Intro, ∃ s, r = printer.Renderable.Text s := by
  rcases bodyRows_shape ra verbs (sortedKeys ra) true "" row h with h2 | ⟨g2, h2⟩ | ⟨gr, _, h2⟩
  · subst h2
    intro r hr
    simp only [spacerRow, List.mem_singleton] at hr
    exact ⟨" ", hr⟩
  · subst h2
    intro r hr
    rcases List.mem_cons.mp hr with h3 | h3
    · exact ⟨_, h3⟩
    · rcases List.mem_map.mp h3 with ⟨v, _, h4⟩
      exact ⟨_, h4.symm⟩
  · subst h2
    intro r hr
    simp only [dataRow, List.mem_singleton] at hr
    exact ⟨_, hr⟩

theorem rowLine_ascii_congr (row : printer.Row)
    (hIntro : ∀ r ∈ row.Intro, ∃ s, r = printer.Renderable.Text s) (t1 t2 : Bool) :
    printer.rowLine ⟨t1, "ascii-table"⟩ row = printer.rowLine ⟨t2, "ascii-table"⟩ row := by
  unfold printer.rowLine
  have hI : row.Intro.map (fun r => r.Render ⟨t1, "ascii-table"⟩)
      = row.Intro.map (fun r => r.Render ⟨t2, "ascii-table"⟩) := by
    apply List.map_congr_left
    intro r hr
    rcases hIntro r hr with ⟨s, rfl⟩
    rfl
  have hE : row.Entries.map (fun o => "\t" ++ o.Render ⟨t1, "ascii-table"⟩)
      = row.Entries.map (fun o => "\t" ++ o.Render ⟨t2, "ascii-table"⟩) := by
    apply List.map_congr_left
    intro o _
    rw [printer.render_ascii_eq, printer.render_ascii_eq]
  rw [hI, hE]

theorem table_render_ascii_congr (ra : ResourceAccess) (verbs : List String) (t1 t2 : Bool) :
    (ResourceAccess.Table ra verbs).Render ⟨t1, "ascii-table"⟩
      = (ResourceAccess.Table ra verbs).Render ⟨t2, "ascii-table"⟩ := by
  unfold printer.Table.Render
  have hR : (ResourceAccess.Table ra verbs).Rows.map (printer.rowLine ⟨t1, "ascii-table"⟩)
      = (ResourceAccess.Table ra verbs).Rows.map (printer.rowLine ⟨t2, "ascii-table"⟩) := by
    apply List.map_congr_left
    intro row hrow
    exact rowLine_ascii_congr row (table_rows_introText ra verbs row hrow) t1 t2
  have hH : (ResourceAccess.Table ra verbs).Headers = ([] : List printer.Renderable) := rfl
  rw [hR, hH]
  rfl

end result

/-! ### Claim theorems -/

/-- C3: For every AccessResult, the data rows of the table appear in
non-decreasing case-sensitive lexicographic order of the (group, resource)
pair parsed from each key: the sorted key sequence is pairwise `grLe`, and
the data rows built from it occur in exactly that order inside the table's
row list (as a sublist). -/
theorem C3_data_rows_sorted :
    ∀ (ra : result.ResourceAccess) (verbs : List String),
      (result.sortedKeys ra).Pairwise result.grLe ∧
      ((result.sortedKeys ra).map (result.dataRow ra verbs)).Sublist
        (result.ResourceAccess.Table ra verbs).Rows :=
  fun ra verbs =>
    ⟨result.pairwise_sortSlice _, result.map_dataRow_sublist ra verbs _ true ""⟩

/-- C4: A resource with empty group sorts under the literal empty string but
its group-header row displays "core:" (never ":"); concretely, with keys
"pods" (group "") and "x.apps" (group "apps"), the empty group is emitted
first — as literal "" sorts before "apps" while the display label "core"
would not — and its header carries "core:". -/
theorem C4_core_display_label :
    (∀ verbs : List String,
      (result.headerRow "" verbs).Intro.head? = some (.Text "core:")) ∧
    (∀ verbs : List String,
      (result.headerRow "" verbs).Intro.head? ≠ some (.Text ":")) ∧
    ((result.ResourceAccess.Table [("pods", []), ("x.apps", [])] ["get"]).Rows =
      [result.headerRow "" ["get"],
       { Intro := [.Text "pods"], Entries := [.None] },
       result.spacerRow,
       result.headerRow "apps" ["get"],
       { Intro := [.Text "x"], Entries := [.None] }]) := by
  refine ⟨fun verbs => rfl, ?_, by decide⟩
  intro verbs h
  have hh : (result.headerRow "" verbs).Intro.head?
      = some (printer.Renderable.Text "core:") := rfl
  rw [hh] at h
  injection h with h3
  injection h3 with h4
  exact absurd h4 (by decide)

/-- C5 counterexample: with the default format on a terminal, the NoData
outcome is NOT left unwrapped — `colored` wraps it in the reset color code
`\033[0m` between tabwriter escape markers, so its rendering contains ANSI
escape bytes, contradicting the claim at this concrete input. -/
theorem C5_nodata_counterexample :
    printer.Outcome.Render .None ⟨true, "default"⟩ = "ÿ\u001B[0mÿÿ\u001B[0mÿ" ∧
    escChar ∈ (printer.Outcome.Render .None ⟨true, "default"⟩).data := by
  exact ⟨rfl, by decide⟩

/-- C5 amended: with the default format on a terminal, Allowed is wrapped in
green (code 32), Denied in red (31), Error in purple (35); NoData is also
passed through the color wrapper, but with the "none" color code 0 (ANSI
reset) around its empty glyph, rather than being left unwrapped. -/
theorem C5_terminal_colors :
    printer.Outcome.Render .Up ⟨true, "default"⟩ = "ÿ\u001B[32mÿ✔ÿ\u001B[0mÿ" ∧
    printer.Outcome.Render .Down ⟨true, "default"⟩ = "ÿ\u001B[31mÿ✖ÿ\u001B[0mÿ" ∧
    printer.Outcome.Render .Err ⟨true, "default"⟩ = "ÿ\u001B[35mÿERRÿ\u001B[0mÿ" ∧
    printer.Outcome.Render .None ⟨true, "default"⟩ = "ÿ\u001B[0mÿÿ\u001B[0mÿ" :=
  ⟨rfl, rfl, rfl, rfl⟩

/-- C6: under the "ascii-table" format every outcome renders to one of
"n/a"/"yes"/"no"/"ERR" with no ANSI escape byte, independently of the
terminal flag; consequently rendering a table built by
`ResourceAccess.Table` under "ascii-table" is byte-identical across any two
terminal flags (and hence across repeated renders). -/
theorem C6_ascii_mode_stable :
    (∀ (o : printer.Outcome) (t : Bool),
      printer.Outcome.Render o ⟨t, "ascii-table"⟩ ∈ ["n/a", "yes", "no", "ERR"] ∧
      escChar ∉ (printer.Outcome.Render o ⟨t, "ascii-table"⟩).data ∧
      printer.Outcome.Render o ⟨t, "ascii-table"⟩
        = printer.Outcome.Render o ⟨false, "ascii-table"⟩) ∧
    (∀ (ra : result.ResourceAccess) (verbs : List String) (t1 t2 : Bool),
      (result.ResourceAccess.Table ra verbs).Render ⟨t1, "ascii-table"⟩
        = (result.ResourceAccess.Table ra verbs).Render ⟨t2, "ascii-table"⟩) := by
  constructor
  · intro o t
    cases o <;> cases t <;> exact ⟨by decide, by decide, by decide⟩
  · exact result.table_render_ascii_congr

/-- C8: for any output-format string other than "ascii-table" (including ""
and arbitrary unrecognized values), `Outcome.Render` returns exactly what it
returns for "default" with the same terminal flag. -/
theorem C8_format_fallback :
    ∀ (o : printer.Outcome) (t : Bool) (fmt : String), fmt ≠ "ascii-table" →
      printer.Outcome.Render o ⟨t, fmt⟩ = printer.Outcome.Render o ⟨t, "default"⟩ := by
  intro o t fmt hf
  simp only [printer.Outcome.Render]
  rw [if_neg hf, if_neg (by decide : ¬("default" : String) = "ascii-table")]

/-- C8 witness: the theorem applied to the unrecognized format "json". -/
theorem C8_format_fallback_witness :
    printer.Outcome.Render .Up ⟨true, "json"⟩
      = printer.Outcome.Render .Up ⟨true, "default"⟩ :=
  C8_format_fallback .Up true "json" (by decide)

/-- C9: the empty AccessResult yields a table with no rows at all (so no
group headers, spacers or data rows), and rendering it in any environment
writes only the (empty) top-level header line. -/
theorem C9_empty_result :
    ∀ (verbs : List String),
      (result.ResourceAccess.Table [] verbs).Rows = [] ∧
      ∀ (e : printer.Env), (result.ResourceAccess.Table [] verbs).Render e = "\n" :=
  fun _ => ⟨rfl, fun _ => rfl⟩

/-- C1: For every non-empty AccessResult the very first row of the table is
a group-header row (no spacer precedes it), and every group-header row at
any later position is immediately preceded by a blank spacer row; on the
spec's example (pods: get Allowed / list Denied; pods.apps: get Error,
verbs [get, list]) the rows are exactly [core header, pods data, spacer,
apps header, pods data] — 2 group-header rows, 2 data rows and 1 spacer
row, none before the first group. -/
theorem C1_group_header_layout :
    ((result.ResourceAccess.Table result.exampleRA ["get", "list"]).Rows =
      [result.headerRow "" ["get", "list"],
       { Intro := [.Text "pods"], Entries := [.Up, .Down] },
       result.spacerRow,
       result.headerRow "apps" ["get", "list"],
       { Intro := [.Text "pods"], Entries := [.Err, .None] }]) ∧
    (∀ (ra : result.ResourceAccess) (verbs : List String), ra ≠ [] →
      ∃ g rest, (result.ResourceAccess.Table ra verbs).Rows
        = result.headerRow g verbs :: rest) ∧
    (∀ (ra : result.ResourceAccess) (verbs : List String) (n : Nat) (g2 : String),
      (result.ResourceAccess.Table ra verbs).Rows[n + 1]?
          = some (result.headerRow g2 verbs) →
      (result.ResourceAccess.Table ra verbs).Rows[n]? = some result.spacerRow) := by
  refine ⟨by decide, ?_, ?_⟩
  · intro ra verbs h
    rcases List.exists_cons_of_ne_nil (result.sortedKeys_ne_nil h) with ⟨gr, rest, heq⟩
    refine ⟨gr.Group, result.dataRow ra verbs gr ::
      result.bodyRows ra verbs rest false gr.Group, ?_⟩
    show result.bodyRows ra verbs (result.sortedKeys ra) true "" = _
    rw [heq, result.bodyRows_true_cons]
  · intro ra verbs n g2 h
    have hrows : (result.ResourceAccess.Table ra verbs).Rows
        = result.bodyRows ra verbs (result.sortedKeys ra) true "" := rfl
    rw [hrows] at h ⊢
    rcases hsk : result.sortedKeys ra with _ | ⟨gr, rest⟩
    · rw [hsk] at h
      simp [result.bodyRows] at h
    · rw [hsk] at h
      rw [result.bodyRows_true_cons] at h ⊢
      rcases n with _ | n
      · rw [List.getElem?_cons_succ, List.getElem?_cons_zero] at h
        exact absurd (Option.some.inj h)
          (result.dataRow_ne_headerRow ra verbs gr g2)
      rcases n with _ | n
      · rw [List.getElem?_cons_succ, List.getElem?_cons_succ] at h
        exact absurd h
          ((result.bodyRows_false_struct ra verbs rest gr.Group).1 g2)
      · rw [List.getElem?_cons_succ, List.getElem?_cons_succ] at h
        rw [List.getElem?_cons_succ, List.getElem?_cons_succ]
        exact (result.bodyRows_false_struct ra verbs rest gr.Group).2 n g2 h

/-- C1 witness: the general clauses applied to the spec's example — the
first row is a group-header row, and the header at index 3 is preceded by
the spacer at index 2. -/
theorem C1_group_header_layout_witness :
    (∃ g rest, (result.ResourceAccess.Table result.exampleRA ["get", "list"]).Rows
      = result.headerRow g ["get", "list"] :: rest) ∧
    (result.ResourceAccess.Table result.exampleRA ["get", "list"]).Rows[2]?
      = some result.spacerRow :=
  ⟨C1_group_header_layout.2.1 result.exampleRA ["get", "list"] (by decide),
   C1_group_header_layout.2.2 result.exampleRA ["get", "list"] 2 "apps" (by decide)⟩

/-- C2: every row of a constructed table is a spacer, a group-header, or a
data row; every data row has exactly `verbs.length` outcome cells; and the
cell for the i-th verb equals the outcome stored for (resource, verb) in
the input mapping, or the NoData outcome (`None`) when the inner mapping
has no entry for that verb. -/
theorem C2_data_row_cells :
    ∀ (ra : result.ResourceAccess) (verbs : List String),
      (∀ row ∈ (result.ResourceAccess.Table ra verbs).Rows,
        row = result.spacerRow ∨ (∃ g, row = result.headerRow g verbs) ∨
          ∃ gr, row = result.dataRow ra verbs gr) ∧
      (∀ gr : result.GroupResource,
        (result.dataRow ra verbs gr).Entries.length = verbs.length) ∧
      (∀ (gr : result.GroupResource) (i : Nat) (hi : i < verbs.length),
        (result.dataRow ra verbs gr).Entries[i]? =
          some (match result.findVal (result.outerGet ra gr.toStr) verbs[i] with
                | some a => result.accessToOutcome a
                | Option.none => printer.Outcome.None)) := by
  intro ra verbs
  refine ⟨?_, fun gr => by simp [result.dataRow], ?_⟩
  · intro row h
    rcases result.bodyRows_shape ra verbs (result.sortedKeys ra) true "" row h with
      h2 | ⟨g, h2⟩ | ⟨gr, _, h2⟩
    · exact Or.inl h2
    · exact Or.inr (Or.inl ⟨g, h2⟩)
    · exact Or.inr (Or.inr ⟨gr, h2⟩)
  · intro gr i hi
    have he : (result.dataRow ra verbs gr).Entries
        = verbs.map (fun v =>
            result.accessToOutcome (result.innerGet (result.outerGet ra gr.toStr) v)) := rfl
    rw [he, List.getElem?_map, List.getElem?_eq_getElem hi]
    have hv : ∀ v : String,
        result.accessToOutcome (result.innerGet (result.outerGet ra gr.toStr) v)
          = match result.findVal (result.outerGet ra gr.toStr) v with
            | some a => result.accessToOutcome a
            | Option.none => printer.Outcome.None := by
      intro v
      cases hfv : result.findVal (result.outerGet ra gr.toStr) v with
      | none => simp [result.innerGet, hfv, result.Access.zeroValue, result.accessToOutcome]
      | some a => simp [result.innerGet, hfv]
    have hm : Option.map (fun v =>
          result.accessToOutcome (result.innerGet (result.outerGet ra gr.toStr) v))
          (some (verbs[i])) =
        some (result.accessToOutcome
          (result.innerGet (result.outerGet ra gr.toStr) (verbs[i]))) := rfl
    rw [hm, hv]

/-- C2 witness: the clauses applied to the spec's example — the spacer row
is classified, and the "get" cell of the core "pods" data row equals the
stored Allowed outcome. -/
theorem C2_data_row_cells_witness :
    (result.spacerRow = result.spacerRow ∨
      (∃ g, result.spacerRow = result.headerRow g ["get", "list"]) ∨
      ∃ gr, result.spacerRow = result.dataRow result.exampleRA ["get", "list"] gr) ∧
    (result.dataRow result.exampleRA ["get", "list"]
        { Group := "", Resource := "pods" }).Entries[0]? =
      some (match result.findVal
              (result.outerGet result.exampleRA
                (result.GroupResource.toStr { Group := "", Resource := "pods" })) "get" with
            | some a => result.accessToOutcome a
            | Option.none => printer.Outcome.None) :=
  ⟨(C2_data_row_cells result.exampleRA ["get", "list"]).1 result.spacerRow (by decide),
   (C2_data_row_cells result.exampleRA ["get", "list"]).2.2
     { Group := "", Resource := "pods" } 0 (by decide)⟩

/-- C7: at the `uint8` level, every outcome value outside the four declared
constants (0..3) makes `Outcome.Render` hit the `panic` branch (modelled as
`Option.none`) in every environment, while each of the four declared
constants renders successfully, to exactly the value of the
`Outcome`-level `Render`. -/
theorem C7_unknown_outcome_fatal :
    ∀ (e : printer.Env),
      (∀ n : Nat, 4 ≤ n → printer.RenderGo n e = Option.none) ∧
      (∀ o : printer.Outcome,
        printer.RenderGo o.toNat e = some (printer.Outcome.Render o e)) := by
  intro e
  obtain ⟨t, f⟩ := e
  constructor
  · intro n hn
    have h0 : n ≠ 0 := by omega
    have h1 : n ≠ 1 := by omega
    have h2 : n ≠ 2 := by omega
    have h3 : n ≠ 3 := by omega
    by_cases hf : f = "ascii-table"
    · simp [printer.RenderGo, hf, printer.asciiAccessCodeGo, h0, h1, h2, h3]
    · cases t
      · simp [printer.RenderGo, hf, printer.humanreadableAccessCodeGo, h0, h1, h2, h3]
      · simp [printer.RenderGo, hf, printer.coloredGo,
          printer.humanreadableAccessCodeGo, h0, h1, h2, h3]
  · intro o
    by_cases hf : f = "ascii-table"
    · subst hf
      cases t <;> cases o <;> rfl
    · have hgo : printer.RenderGo o.toNat ⟨t, f⟩
          = printer.RenderGo o.toNat ⟨t, "default"⟩ := by
        simp only [printer.RenderGo]
        rw [if_neg hf, if_neg (by decide : ¬("default" : String) = "ascii-table")]
      have hr : printer.Outcome.Render o ⟨t, f⟩
          = printer.Outcome.Render o ⟨t, "default"⟩ := by
        simp only [printer.Outcome.Render]
        rw [if_neg hf, if_neg (by decide : ¬("default" : String) = "ascii-table")]
      rw [hgo, hr]
      cases t <;> cases o <;> rfl

/-- C7 witness: the unknown value 7 panics on a terminal with default
format, while the declared constant Up renders successfully there. -/
theorem C7_unknown_outcome_fatal_witness :
    printer.RenderGo 7 ⟨true, "default"⟩ = Option.none ∧
    printer.RenderGo (printer.Outcome.toNat .Up) ⟨true, "default"⟩
      = some (printer.Outcome.Render .Up ⟨true, "default"⟩) :=
  ⟨(C7_unknown_outcome_fatal ⟨true, "default"⟩).1 7 (by omega),
   (C7_unknown_outcome_fatal ⟨true, "default"⟩).2 .Up⟩

/-- C10: every spacer row and every group-header row carries exactly the
single outcome entry `None` no matter how many verbs are displayed, while a
data row carries one entry per verb; every table row is one of these three
shapes, and on the spec's two-verb example the table indeed holds rows with
different entry counts (1 vs 2). -/
theorem C10_row_entry_counts :
    (∀ (g : String) (verbs : List String),
      (result.headerRow g verbs).Entries = [printer.Outcome.None]) ∧
    (result.spacerRow.Entries = [printer.Outcome.None]) ∧
    (∀ (ra : result.ResourceAccess) (verbs : List String) (gr : result.GroupResource),
      (result.dataRow ra verbs gr).Entries.length = verbs.length) ∧
    (∀ (ra : result.ResourceAccess) (verbs : List String),
      ∀ row ∈ (result.ResourceAccess.Table ra verbs).Rows,
        row.Entries = [printer.Outcome.None] ∨ row.Entries.length = verbs.length) ∧
    (∃ r1, r1 ∈ (result.ResourceAccess.Table result.exampleRA ["get", "list"]).Rows ∧
      ∃ r2, r2 ∈ (result.ResourceAccess.Table result.exampleRA ["get", "list"]).Rows ∧
        r1.Entries.length ≠ r2.Entries.length) := by
  refine ⟨fun g verbs => rfl, rfl, fun ra verbs gr => by simp [result.dataRow], ?_, ?_⟩
  · intro ra verbs row h
    rcases result.bodyRows_shape ra verbs (result.sortedKeys ra) true "" row h with
      h2 | ⟨g, h2⟩ | ⟨gr, _, h2⟩
    · exact Or.inl (by rw [h2]; rfl)
    · exact Or.inl (by rw [h2]; rfl)
    · exact Or.inr (by rw [h2]; simp [result.dataRow])
  · exact ⟨result.spacerRow, by decide,
      { Intro := [.Text "pods"], Entries := [.Up, .Down] }, by decide, by decide⟩

/-- C10 witness: the per-row clause applied to the spacer row of the
example table. -/
theorem C10_row_entry_counts_witness :
    result.spacerRow.Entries = [printer.Outcome.None] ∨
      result.spacerRow.Entries.length = (["get", "list"] : List String).length :=
  C10_row_entry_counts.2.2.2.1 result.exampleRA ["get", "list"]
    result.spacerRow (by decide)

/-- C4 witness: the header-label clauses applied at a concrete verb list. -/
theorem C4_core_display_label_witness :
    (result.headerRow "" ["get"]).Intro.head?
      = some (printer.Renderable.Text "core:") ∧
    (result.headerRow "" ["get"]).Intro.head?
      ≠ some (printer.Renderable.Text ":") :=
  ⟨C4_core_display_label.1 ["get"], C4_core_display_label.2.1 ["get"]⟩

/-- C6 witness: the outcome-level clause applied to Up on a terminal. -/
theorem C6_ascii_mode_stable_witness :
    printer.Outcome.Render .Up ⟨true, "ascii-table"⟩ ∈ ["n/a", "yes", "no", "ERR"] ∧
    escChar ∉ (printer.Outcome.Render .Up ⟨true, "ascii-table"⟩).data :=
  ⟨(C6_ascii_mode_stable.1 .Up true).1, (C6_ascii_mode_stable.1 .Up true).2.1⟩
